import Mathlib

/-!
# A verification of the DataJunction core against its specification

This development gives a shallow embedding, in Lean, of the core functions of
the `datajunction` repository — the permission verifier
(`src/datajunction/auth/verifier.py`), the query builder
(`src/datajunction/sql/build.py`) and the data model they use — and proves
(or refutes) the spec's claims about them.

Conventions of the embedding:

* Python functions that can `raise` become functions into `Except String α`;
  the error string mirrors the Python message.
* The external SQL grammar parser (`sqloxide.parse_sql`) is out of scope in
  the spec; its output — the generic parse tree — is embedded as typed
  structures (`NamePart`, `Table`, `Expr`, `SelectItem`, `Select`,
  `Statement`) covering exactly the grammar productions the core reads and
  rewrites (`Table`, `Select`, `Identifier`, `CompoundIdentifier`,
  `ExprWithAlias`, `UnnamedExpr`, function applications). Functions that in
  Python take SQL text take the already-parsed statements here.
* The generic tree-search helpers (`find_nodes_by_key`,
  `find_nodes_by_key_with_parent` from `datajunction/sql/parse.py`, a file
  whose source is not part of this snapshot) are modelled from the spec as
  structural recursions over the typed tree; each such definition carries a
  doc comment saying so.
* In-place mutation of the parse tree becomes explicit state passing: each
  rewriting phase returns the new tree (and, where Python threads a dict,
  an association list).
-/

namespace DJ

/-! ## The generic parse tree

A name part as serialized by the external parser: a `value` and a
`quote_style`.  After qualification the `value` slot can hold Python's
`None` (the verifier writes the caller's `catalog`/`schema`, which are
optional, and the wildcard check nulls permission parts in place), so the
value is an `Option String`; raw parser output always carries `some`. -/

structure NamePart where
  quote_style : Option String
  value : Option String
deriving DecidableEq, Repr

/-- A table reference: an identifier chain (`name`) and an optional alias
(the parser's `TableAlias` carries a name part; `alias` is reserved in
Lean, hence the trailing underscore). -/
structure Table where
  name : List NamePart
  alias_ : Option NamePart
deriving DecidableEq, Repr

/-- Expressions, restricted to the productions the core reads and rewrites:
bare identifiers, compound identifiers (a list of plain name parts — the
parts of a compound identifier are *not* themselves `Identifier` nodes, so
the identifier pass does not descend into them, as in the source tree),
function applications (the recursive case: `SUM(price)`, `COUNT(*)` …),
number literals and the wildcard function argument. -/
inductive Expr where
  | identifier (id : NamePart)
  | compoundIdentifier (parts : List NamePart)
  | fn (name : String) (args : List Expr)
  | number (lit : String)
  | wildcardArg

mutual

/-- Boolean structural equality on expressions (the nested `List Expr`
defeats `deriving DecidableEq`, so it is written out). -/
def Expr.beq : Expr → Expr → Bool
  | .identifier a, .identifier b => decide (a = b)
  | .compoundIdentifier a, .compoundIdentifier b => decide (a = b)
  | .fn na aa, .fn nb ab => decide (na = nb) && Expr.beqList aa ab
  | .number a, .number b => decide (a = b)
  | .wildcardArg, .wildcardArg => true
  | _, _ => false

def Expr.beqList : List Expr → List Expr → Bool
  | [], [] => true
  | a :: as, b :: bs => Expr.beq a b && Expr.beqList as bs
  | _, _ => false

end

mutual

theorem Expr.eq_of_beq : ∀ {a b : Expr}, Expr.beq a b = true → a = b
  | .identifier _, .identifier _, h => by
      simpa [Expr.beq] using h
  | .compoundIdentifier _, .compoundIdentifier _, h => by
      simpa [Expr.beq] using h
  | .fn na aa, .fn nb ab, h => by
      simp only [Expr.beq, Bool.and_eq_true, decide_eq_true_eq] at h
      rw [h.1, Expr.eqList_of_beqList h.2]
  | .number _, .number _, h => by
      simpa [Expr.beq] using h
  | .wildcardArg, .wildcardArg, _ => rfl

theorem Expr.eqList_of_beqList : ∀ {as bs : List Expr}, Expr.beqList as bs = true → as = bs
  | [], [], _ => rfl
  | a :: as, b :: bs, h => by
      simp only [Expr.beqList, Bool.and_eq_true] at h
      rw [Expr.eq_of_beq h.1, Expr.eqList_of_beqList h.2]

end

mutual

theorem Expr.beq_refl : ∀ (a : Expr), Expr.beq a a = true
  | .identifier _ => by simp [Expr.beq]
  | .compoundIdentifier _ => by simp [Expr.beq]
  | .fn na aa => by simp [Expr.beq, Expr.beqList_refl aa]
  | .number _ => by simp [Expr.beq]
  | .wildcardArg => rfl

theorem Expr.beqList_refl : ∀ (as : List Expr), Expr.beqList as as = true
  | [] => rfl
  | a :: as => by simp [Expr.beqList, Expr.beq_refl a, Expr.beqList_refl as]

end

instance : DecidableEq Expr := fun a b =>
  decidable_of_iff (Expr.beq a b = true)
    ⟨Expr.eq_of_beq, fun h => h ▸ Expr.beq_refl a⟩

/-- An entry of a `SELECT` projection list. -/
inductive SelectItem where
  | unnamedExpr (e : Expr)
  | exprWithAlias (e : Expr) (alias_ : NamePart)
  | wildcard
deriving DecidableEq

/-- The `Select` production: projection, `FROM` tables, optional `WHERE`
selection and `GROUP BY` list — the fields the core reads. -/
structure Select where
  projection : List SelectItem
  froms : List Table
  selection : Option Expr
  group_by : List Expr
deriving DecidableEq

/-- A statement: a `Query` whose body is a `Select`. -/
structure Statement where
  select : Select
deriving DecidableEq

/-- Modelled from the spec: the generic recursive search
`find_nodes_by_key(tree, "Table")` (from `datajunction/sql/parse.py`, not in
this snapshot), specialised to the typed tree, where table nodes occur in
the `FROM` list of the statement's select. -/
def Statement.tables (st : Statement) : List Table :=
  st.select.froms

/-! ## Permission matching (`auth/verifier.py`) -/

/-- `verifier.py`: `NULL = "null"`. -/
def NULL : String := "null"

/-- The in-place wildcard write of `matches_permission`: a permission name
part whose `value` is the literal `"null"` has its `value` set to Python's
`None` before the comparison (`if left["value"] == NULL: left["value"] = None`). -/
def wildcardPart (left : NamePart) : NamePart :=
  if left.value = some NULL then { left with value := none } else left

/-- One permission-table/query-table comparison, with the state it leaves
behind.  Mirrors the inner loop of `matches_permission`: iterate
`zip(allowed_table, table["name"])`, null `"null"`-valued permission parts
in place, and `break` on the first pair that is not (dict-)equal; the
result is `true` exactly when no pair broke (`for … else`).  The returned
list is the permission name after the in-place writes (parts after the
break point, or beyond the zip, are untouched). -/
def matchParts : List NamePart → List NamePart → Bool × List NamePart
  | ls, [] => (true, ls)
  | [], _ :: _ => (true, [])
  | l :: ls, r :: rs =>
      if wildcardPart l = r then
        ((matchParts ls rs).1, wildcardPart l :: (matchParts ls rs).2)
      else
        (false, wildcardPart l :: ls)

/-- The middle loop of `matches_permission`: try every allowed table (note
the source never breaks out of this loop — a later allowed table is still
visited, and mutated, after a match), propagating the in-place writes. -/
def matchAllowed : List (List NamePart) → List NamePart → Bool × List (List NamePart)
  | [], _ => (false, [])
  | a :: as, name =>
      ((matchParts a name).1 || (matchAllowed as name).1,
        (matchParts a name).2 :: (matchAllowed as name).2)

/-- The outer loop of `matches_permission` over the query's tables,
threading the mutated permission-table names and returning `False` at the
first query table no allowed table matches. -/
def matchTables (allowed : List (List NamePart)) : List (List NamePart) → Bool
  | [] => true
  | t :: ts =>
      if (matchAllowed allowed t).1 then matchTables (matchAllowed allowed t).2 ts
      else false

/-- `matches_permission(query, permission)`: every table of the query
statement must match at least one table of the permission statement.  (The
trailing `for projection …` loop of the source has no body — the spec
records it as an unfinished fragment — so table-level matching is the whole
behaviour, and the function then returns `True`.) -/
def matches_permission (query permission : Statement) : Bool :=
  matchTables (permission.tables.map Table.name) (query.tables.map Table.name)

/-- The per-pair comparison without state: the permission part, wildcarded,
must equal the query part (value *and* quote style). -/
def tableNameMatches (allowed name : List NamePart) : Bool :=
  (allowed.zip name).all fun lr => decide (wildcardPart lr.1 = lr.2)

/-- `verify_statement(query, permissions)`: the statement must match at
least one statement of every permission (each permission string parses to a
list of alternative statements; parsing is the external parser, so a
permission arrives here as that list). -/
def verify_statement (query : Statement) (permissions : List (List Statement)) : Bool :=
  permissions.all fun permission =>
    permission.any fun permission_statement =>
      matches_permission query permission_statement

/-! ### The in-place wildcard writes do not change the verdict

`matches_permission` nulls `"null"`-valued permission parts *in place*, so
later query tables compare against a partially rewritten permission.  The
write is idempotent under `wildcardPart`, so the stateful loops compute the
same verdict as the stateless all/any/all form; the lemmas below prove it. -/

theorem wildcardPart_idem (p : NamePart) :
    wildcardPart (wildcardPart p) = wildcardPart p := by
  unfold wildcardPart
  by_cases h : p.value = some NULL <;> simp [h]

theorem matchParts_fst (a t : List NamePart) :
    (matchParts a t).1 = tableNameMatches a t := by
  induction a generalizing t with
  | nil => cases t <;> simp [matchParts, tableNameMatches]
  | cons l ls ih =>
      cases t with
      | nil => simp [matchParts, tableNameMatches]
      | cons r rs =>
          simp only [matchParts, tableNameMatches, List.zip_cons_cons, List.all_cons]
          by_cases h : wildcardPart l = r
          · simp [h, ih, tableNameMatches]
          · simp [h]

theorem matchParts_snd (a t : List NamePart) :
    (matchParts a t).2.map wildcardPart = a.map wildcardPart := by
  induction a generalizing t with
  | nil => cases t <;> simp [matchParts]
  | cons l ls ih =>
      cases t with
      | nil => simp [matchParts]
      | cons r rs =>
          simp only [matchParts]
          by_cases h : wildcardPart l = r
          · rw [if_pos h]
            simp [wildcardPart_idem, ih]
          · rw [if_neg h]
            simp [wildcardPart_idem]

theorem tableNameMatches_congr {a b : List NamePart} (t : List NamePart)
    (h : a.map wildcardPart = b.map wildcardPart) :
    tableNameMatches a t = tableNameMatches b t := by
  induction a generalizing b t with
  | nil => cases b with
      | nil => rfl
      | cons x xs => simp at h
  | cons l ls ih =>
      cases b with
      | nil => simp at h
      | cons x xs =>
          simp only [List.map_cons, List.cons.injEq] at h
          cases t with
          | nil => simp [tableNameMatches]
          | cons r rs =>
              simp only [tableNameMatches, List.zip_cons_cons, List.all_cons]
              rw [h.1]
              have h2 := ih rs h.2
              simp only [tableNameMatches] at h2
              rw [h2]

theorem matchAllowed_fst (as : List (List NamePart)) (t : List NamePart) :
    (matchAllowed as t).1 = as.any fun a => tableNameMatches a t := by
  induction as with
  | nil => simp [matchAllowed]
  | cons a as ih => simp [matchAllowed, matchParts_fst, ih]

theorem matchAllowed_snd (as : List (List NamePart)) (t : List NamePart) :
    (matchAllowed as t).2.map (List.map wildcardPart) =
      as.map (List.map wildcardPart) := by
  induction as with
  | nil => simp [matchAllowed]
  | cons a as ih => simp [matchAllowed, matchParts_snd, ih]

theorem matchTables_congr {as bs : List (List NamePart)} (ts : List (List NamePart))
    (h : as.map (List.map wildcardPart) = bs.map (List.map wildcardPart)) :
    matchTables as ts = matchTables bs ts := by
  induction ts generalizing as bs with
  | nil => simp [matchTables]
  | cons t ts ih =>
      simp only [matchTables]
      have hany : (as.any fun a => tableNameMatches a t) =
          (bs.any fun a => tableNameMatches a t) := by
        induction as generalizing bs with
        | nil => cases bs with
            | nil => rfl
            | cons b bs => simp at h
        | cons a as iha =>
            cases bs with
            | nil => simp at h
            | cons b bs =>
                simp only [List.map_cons, List.cons.injEq] at h
                simp only [List.any_cons]
                rw [tableNameMatches_congr t h.1, iha h.2]
      rw [matchAllowed_fst, matchAllowed_fst, hany]
      by_cases hb : (bs.any fun a => tableNameMatches a t) = true
      · simp only [hb, if_true]
        exact ih (by rw [matchAllowed_snd, matchAllowed_snd, h])
      · simp [hb]

/-- The stateful matching loop equals the stateless all/any form: a query
matches a permission iff every query table name matches some allowed name. -/
theorem matchTables_eq_all (as ts : List (List NamePart)) :
    matchTables as ts = ts.all fun t => as.any fun a => tableNameMatches a t := by
  induction ts generalizing as with
  | nil => simp [matchTables]
  | cons t ts ih =>
      simp only [matchTables, List.all_cons, matchAllowed_fst]
      by_cases hb : (as.any fun a => tableNameMatches a t) = true
      · rw [hb]
        simp only [if_true, Bool.true_and]
        rw [matchTables_congr ts (matchAllowed_snd as t), ih]
      · simp [hb]

theorem matches_permission_eq (query permission : Statement) :
    matches_permission query permission =
      (query.tables.map Table.name).all fun t =>
        (permission.tables.map Table.name).any fun a => tableNameMatches a t := by
  unfold matches_permission
  exact matchTables_eq_all _ _

/-! ## Identifier qualification (`prepare_tree`, `auth/verifier.py`)

`prepare_tree` mutates the parse tree in place in three phases: (1) pad
every table name to a fully qualified chain and record, per fully qualified
key, the table and its physical columns; (2) per `SELECT`, record and erase
table aliases, then rewrite compound identifiers (through aliases, or
padding), then resolve bare identifiers to a unique owning table; (3)
replace `expr AS alias` projection entries by the bare expression.  The
embedding runs the same phases, threading the tree and the dicts. -/

/-- Python list slicing `xs[:i]`, including the negative-index case that
`4 - len(name)` reaches for names of five or more parts. -/
def pyTake {α : Type} (xs : List α) (i : Int) : List α :=
  if 0 ≤ i then xs.take i.toNat else xs.take (xs.length - (-i).toNat)

/-- The caller-supplied qualification parts:
`[{"quote_style": None, "value": v} for v in [database, catalog, schema]]`. -/
def padParts (database : String) (catalog schema : Option String) : List NamePart :=
  [⟨none, some database⟩, ⟨none, catalog⟩, ⟨none, schema⟩]

/-- `table["name"] = prefix[: 4 - len(name)] + name`. -/
def padTableName (pad : List NamePart) (name : List NamePart) : List NamePart :=
  pyTake pad (4 - (name.length : Int)) ++ name

/-- Qualify one table reference in place. -/
def qualifyTable (pad : List NamePart) (t : Table) : Table :=
  { t with name := padTableName pad t.name }

/-- `part["value"] or NULL`: Python's `or` falls through on `None` *and* on
the empty string. -/
def partKeyVal (p : NamePart) : String :=
  match p.value with
  | none => NULL
  | some s => if s = "" then NULL else s

/-- `".".join(part["value"] or NULL for part in table["name"])`. -/
def tableKey (name : List NamePart) : String :=
  String.intercalate "." (name.map partKeyVal)

/-- `get_column_names(engine, fq_table)`: unpack the last two parts of the
qualified name (`*_, schema, table = …`; fewer than two parts is Python's
unpacking `ValueError`) and ask the schema-introspection collaborator —
abstracted as `getCols schema table` — for the physical column names. -/
def get_column_names (getCols : Option String → Option String → List String)
    (name : List NamePart) : Except String (List String) :=
  match name.reverse with
  | tbl :: sch :: _ => .ok (getCols sch.value tbl.value)
  | _ => .error "not enough values to unpack"

/-- Python-dict insertion on an association list: overwriting a present key
keeps its position, a new key is appended. -/
def upsert {κ α : Type} [DecidableEq κ] : List (κ × α) → κ → α → List (κ × α)
  | [], k, v => [(k, v)]
  | (k', v') :: rest, k, v =>
      if k' = k then (k, v) :: rest else (k', v') :: upsert rest k v

/-- Python-dict lookup on an association list. -/
def dlookup {κ α : Type} [DecidableEq κ] : List (κ × α) → κ → Option α
  | [], _ => none
  | (k', v) :: rest, k => if k' = k then some v else dlookup rest k

/-- The two dicts `prepare_tree` builds while qualifying tables: `columns`
(fully qualified key → physical column names) and `tables` (fully qualified
key → the qualified table node). -/
structure Maps where
  columns : List (String × List String)
  tables : List (String × Table)

/-- Phase 1 over one `FROM` list: pad each table name, then record its
columns and itself under the fully qualified key. -/
def qualifyTables (getCols : Option String → Option String → List String)
    (pad : List NamePart) :
    List Table → Maps → Except String (List Table × Maps)
  | [], m => .ok ([], m)
  | t :: ts, m => do
      let cols ← get_column_names getCols (qualifyTable pad t).name
      let rest ← qualifyTables getCols pad ts
        ⟨upsert m.columns (tableKey (qualifyTable pad t).name) cols,
          upsert m.tables (tableKey (qualifyTable pad t).name) (qualifyTable pad t)⟩
      .ok (qualifyTable pad t :: rest.1, rest.2)

/-- Phase 1 over the whole tree (`for table in find_nodes_by_key(tree, "Table")`),
in statement order. -/
def qualifyTreeTables (getCols : Option String → Option String → List String)
    (pad : List NamePart) :
    List Statement → Maps → Except String (List Statement × Maps)
  | [], m => .ok ([], m)
  | st :: sts, m => do
      let r1 ← qualifyTables getCols pad st.select.froms m
      let r2 ← qualifyTreeTables getCols pad sts r1.2
      .ok (Statement.mk { st.select with froms := r1.1 } :: r2.1, r2.2)

/-- Per-select alias collection: record `alias value → qualified table name`
for every aliased table of the select and erase the alias
(`table["alias"] = None`). -/
def collectAliases : List Table → List (Option String × List NamePart) →
    List (Option String × List NamePart) × List Table
  | [], m => (m, [])
  | t :: ts, m =>
      match t.alias_ with
      | some a =>
          ((collectAliases ts (upsert m a.value t.name)).1,
            { t with alias_ := none } :: (collectAliases ts (upsert m a.value t.name)).2)
      | none =>
          ((collectAliases ts m).1, t :: (collectAliases ts m).2)

/-- Left-to-right effectful map over a list (the Python `for` loop over
entries, stopping at the first raised error). -/
def mapME {α β : Type} (f : α → Except String β) : List α → Except String (List β)
  | [] => .ok []
  | a :: as => do .ok ((← f a) :: (← mapME f as))

mutual

/-- A traversal of an expression applying `fi` at every `Identifier` node
and `fc` at every `CompoundIdentifier` node — the typed counterpart of the
source's `find_nodes_by_key_with_parent(select, key)` rewriting loops,
instantiated once per pass with the other handler as the identity. -/
def Expr.rewrite (fi : NamePart → Except String Expr)
    (fc : List NamePart → Except String (List NamePart)) : Expr → Except String Expr
  | .identifier p => fi p
  | .compoundIdentifier ps => do .ok (.compoundIdentifier (← fc ps))
  | .fn n args => do .ok (.fn n (← Expr.rewriteList fi fc args))
  | .number s => .ok (.number s)
  | .wildcardArg => .ok .wildcardArg

def Expr.rewriteList (fi : NamePart → Except String Expr)
    (fc : List NamePart → Except String (List NamePart)) :
    List Expr → Except String (List Expr)
  | [] => .ok []
  | e :: es => do .ok ((← Expr.rewrite fi fc e) :: (← Expr.rewriteList fi fc es))

end

/-- Apply an expression rewrite under a projection entry. -/
def SelectItem.rewrite (fi : NamePart → Except String Expr)
    (fc : List NamePart → Except String (List NamePart)) :
    SelectItem → Except String SelectItem
  | .unnamedExpr e => do .ok (.unnamedExpr (← e.rewrite fi fc))
  | .exprWithAlias e a => do .ok (.exprWithAlias (← e.rewrite fi fc) a)
  | .wildcard => .ok .wildcard

/-- Apply an expression rewrite under the optional `WHERE` selection. -/
def rewriteSelection (fi : NamePart → Except String Expr)
    (fc : List NamePart → Except String (List NamePart)) :
    Option Expr → Except String (Option Expr)
  | none => .ok none
  | some e => do .ok (some (← Expr.rewrite fi fc e))

/-- Apply an expression rewrite everywhere in a select (projection, `WHERE`
selection, `GROUP BY`). -/
def Select.rewriteExprs (fi : NamePart → Except String Expr)
    (fc : List NamePart → Except String (List NamePart)) (s : Select) :
    Except String Select := do
  let proj ← mapME (SelectItem.rewrite fi fc) s.projection
  let sel ← rewriteSelection fi fc s.selection
  let gb ← mapME (Expr.rewrite fi fc) s.group_by
  .ok { s with projection := proj, selection := sel, group_by := gb }

/-- The compound-identifier rewrite: take the last two parts
(`*_, table, column = cid`); a table part whose value is a recorded alias
resolves to the aliased table's qualified name plus the column, anything
else is padded with `prefix[: 5 - len(cid)]`. -/
def rewriteCid (pad : List NamePart) (aliases : List (Option String × List NamePart))
    (cid : List NamePart) : Except String (List NamePart) :=
  match cid.reverse with
  | column :: tbl :: _ =>
      match dlookup aliases tbl.value with
      | some target => .ok (target ++ [column])
      | none => .ok (pyTake pad (5 - (cid.length : Int)) ++ cid)
  | _ => .error "not enough values to unpack"

/-- The source interpolates the whole identifier dict into its error
messages; the embedding prints the value slot. -/
def showPart (p : NamePart) : String :=
  match p.value with
  | none => "None"
  | some s => s

def errColumnNotFound (p : NamePart) : String :=
  "Column " ++ showPart p ++ " not found in any table"

def errAmbiguous (p : NamePart) : String :=
  "Column " ++ showPart p ++ " present is ambiguous"

/-- `candidates = [key for key, value in columns.items() if id_["value"] in value]`:
the dict keys whose recorded column-name lists contain the identifier's
value (dict iteration respects first-insertion order, as `upsert` does). -/
def candidatesFor (m : Maps) (p : NamePart) : List String :=
  (m.columns.filter fun kv =>
    match p.value with
    | some v => kv.2.contains v
    | none => false).map Prod.fst

/-- Resolve a bare identifier: the candidate keys are those whose recorded
column names contain the identifier's value; none found or more than one
found raise, a unique one rewrites the identifier into the owning table's
qualified name followed by the identifier
(`parent["CompoundIdentifier"] = table["name"] + [id_]`).  The `tables`
lookup cannot fail, since both dicts receive exactly the same keys; the
`KeyError` branch keeps the embedding total. -/
def qualifyIdentifier (m : Maps) (p : NamePart) : Except String Expr :=
  match candidatesFor m p with
  | [] => .error (errColumnNotFound p)
  | [k] =>
      match dlookup m.tables k with
      | some t => .ok (.compoundIdentifier (t.name ++ [p]))
      | none => .error "KeyError"
  | _ => .error (errAmbiguous p)

/-- Phase 2 for one select: collect and erase aliases, rewrite every
compound identifier, then resolve every bare identifier — the two rewriting
passes run in this order, as in the source. -/
def qualifySelect (pad : List NamePart) (m : Maps) (s : Select) :
    Except String Select := do
  let s2 ← Select.rewriteExprs (fun p => .ok (.identifier p))
    (rewriteCid pad (collectAliases s.froms []).1)
    { s with froms := (collectAliases s.froms []).2 }
  s2.rewriteExprs (qualifyIdentifier m) (fun ps => .ok ps)

/-- Phase 3: `ExprWithAlias` projection entries become `UnnamedExpr`. -/
def stripAliases (st : Statement) : Statement :=
  Statement.mk { st.select with
    projection := st.select.projection.map fun it =>
      match it with
      | .exprWithAlias e _ => .unnamedExpr e
      | other => other }

/-- `prepare_tree(tree, engine, database, catalog, schema)`: the three
phases in order, over the already-parsed tree. -/
def prepare_tree (getCols : Option String → Option String → List String)
    (database : String) (catalog schema : Option String)
    (tree : List Statement) : Except String (List Statement) := do
  let r1 ← qualifyTreeTables getCols (padParts database catalog schema) tree
    ⟨[], []⟩
  let tree2 ← mapME (fun st => do
    .ok (Statement.mk (← qualifySelect (padParts database catalog schema)
      r1.2 st.select))) r1.1
  .ok (tree2.map stripAliases)

/-- `verify_query(query, engine, database, catalog, schema, permissions)`:
parse (external), qualify via `prepare_tree`, then check every statement
against every permission. -/
def verify_query (getCols : Option String → Option String → List String)
    (database : String) (catalog schema : Option String)
    (tree : List Statement) (permissions : List (List Statement)) :
    Except String Bool := do
  let tree' ← prepare_tree getCols database catalog schema tree
  .ok (tree'.all fun st => verify_statement st permissions)

/-! ## The scenario of `tests/auth/verifier_test.py`

A SQLite table `sales (event_time, price)` in schema `main`, the query
`SELECT s.event_time, SUM(price) AS sum_price FROM sales AS s`, qualified
with `database="postgres", catalog=None, schema="main"`.  These concrete
values feed the witnesses below. -/

/-- The schema-introspection collaborator of the test: table `sales` of
schema `main` has columns `event_time` and `price`. -/
def salesGetCols : Option String → Option String → List String :=
  fun sch tbl =>
    if sch = some "main" && tbl = some "sales" then ["event_time", "price"] else []

/-- The parse of `SELECT s.event_time, SUM(price) AS sum_price FROM sales AS s`. -/
def salesQuery : Statement :=
  ⟨⟨[.unnamedExpr (.compoundIdentifier [⟨none, some "s"⟩, ⟨none, some "event_time"⟩]),
     .exprWithAlias (.fn "SUM" [.identifier ⟨none, some "price"⟩]) ⟨none, some "sum_price"⟩],
    [⟨[⟨none, some "sales"⟩], some ⟨none, some "s"⟩⟩], none, []⟩⟩

/-- The fully qualified chain `postgres.<None>.main.sales` the verifier
builds for the `sales` table (the `catalog` slot holds Python's `None`). -/
def qualifiedSales : List NamePart :=
  [⟨none, some "postgres"⟩, ⟨none, none⟩, ⟨none, some "main"⟩, ⟨none, some "sales"⟩]

/-- The parse of the permission `SELECT * FROM postgres.null.<schema>.sales`. -/
def permNull (schema : String) : Statement :=
  ⟨⟨[.wildcard],
    [⟨[⟨none, some "postgres"⟩, ⟨none, some "null"⟩, ⟨none, some schema⟩,
       ⟨none, some "sales"⟩], none⟩], none, []⟩⟩

/-! ## Claim C1: the `"null"` wildcard -/

/-- **Claim C1, counterexample.**  The claim says a permission table pattern
`("null", c, s, t)` matches the query tables `(x, c, s, t)` for *every*
value `x`.  It does not: `matches_permission` nulls the permission part's
value and then compares whole parts, so `("null", "c", "s", "t")` fails to
match `("db", "c", "s", "t")` — the wildcard slot only ever matches a part
whose value is Python's `None`. -/
theorem matches_permission_wildcard_counterexample :
    matches_permission
      (Statement.mk ⟨[.wildcard],
        [⟨[⟨none, some "db"⟩, ⟨none, some "c"⟩, ⟨none, some "s"⟩, ⟨none, some "t"⟩],
          none⟩], none, []⟩)
      (Statement.mk ⟨[.wildcard],
        [⟨[⟨none, some "null"⟩, ⟨none, some "c"⟩, ⟨none, some "s"⟩, ⟨none, some "t"⟩],
          none⟩], none, []⟩) = false := by
  decide

/-- **Claim C1, amended.**  For a qualified query statement over the table
`(x, c, s, t)` and a permission statement over the pattern `(n, c, s, t)`
where `n`'s value is the literal `"null"` and `c`, `s`, `t` are not
`"null"`-valued: the statement matches the permission exactly when the
query's part `x` is the nulled permission part — value `None`, same quote
style.  Parts not equal to `"null"` require exact (value and quote style)
equality, as the shared `c`, `s`, `t` show. -/
theorem matches_permission_wildcard (n x c s t : NamePart)
    (hn : n.value = some NULL) (hc : c.value ≠ some NULL)
    (hs : s.value ≠ some NULL) (ht : t.value ≠ some NULL) :
    matches_permission
        (Statement.mk ⟨[.wildcard], [⟨[x, c, s, t], none⟩], none, []⟩)
        (Statement.mk ⟨[.wildcard], [⟨[n, c, s, t], none⟩], none, []⟩) = true ↔
      x = ⟨n.quote_style, none⟩ := by
  rw [matches_permission_eq]
  simp only [Statement.tables, List.map_cons, List.map_nil, List.all_cons,
    List.all_nil, List.any_cons, List.any_nil, tableNameMatches,
    List.zip_cons_cons, List.zip_nil_right, Bool.and_true, Bool.or_false,
    List.all_cons, List.all_nil]
  have hwn : wildcardPart n = ⟨n.quote_style, none⟩ := by
    simp [wildcardPart, hn]
  have hwc : wildcardPart c = c := by simp [wildcardPart, hc]
  have hws : wildcardPart s = s := by simp [wildcardPart, hs]
  have hwt : wildcardPart t = t := by simp [wildcardPart, ht]
  simp [hwn, hwc, hws, hwt, eq_comm]

/-- Witness for C1's amended theorem at a concrete input: the pattern
`("null", "c", "s", "t")` matches the query table whose first part is the
`None`-valued slot qualification produces. -/
theorem matches_permission_wildcard_witness :
    matches_permission
        (Statement.mk ⟨[.wildcard],
          [⟨[⟨none, none⟩, ⟨none, some "c"⟩, ⟨none, some "s"⟩, ⟨none, some "t"⟩],
            none⟩], none, []⟩)
        (Statement.mk ⟨[.wildcard],
          [⟨[⟨none, some "null"⟩, ⟨none, some "c"⟩, ⟨none, some "s"⟩, ⟨none, some "t"⟩],
            none⟩], none, []⟩) = true :=
  (matches_permission_wildcard ⟨none, some "null"⟩ ⟨none, none⟩
      ⟨none, some "c"⟩ ⟨none, some "s"⟩ ⟨none, some "t"⟩ rfl
      (by decide) (by decide) (by decide)).mpr rfl

/-! ## Claim C2: the all/any structure of verification -/

/-- **Claim C2.**  When qualification succeeds, `verify_query` returns
`True` iff every statement of the qualified tree matches, for each supplied
permission, at least one of that permission's own statements; and it
returns `False` — one statement failing one permission suffices — iff some
statement has some permission none of whose statements match it. -/
theorem verify_query_all_any (getCols : Option String → Option String → List String)
    (database : String) (catalog schema : Option String)
    (tree tree' : List Statement) (permissions : List (List Statement))
    (prep : prepare_tree getCols database catalog schema tree = .ok tree') :
    (verify_query getCols database catalog schema tree permissions = .ok true ↔
      ∀ st ∈ tree', ∀ perm ∈ permissions,
        ∃ ps ∈ perm, matches_permission st ps = true) ∧
    (verify_query getCols database catalog schema tree permissions = .ok false ↔
      ∃ st ∈ tree', ∃ perm ∈ permissions,
        ∀ ps ∈ perm, matches_permission st ps = false) := by
  unfold verify_query
  rw [prep]
  simp only [bind, Except.bind]
  constructor
  · simp [verify_statement, List.all_eq_true, List.any_eq_true]
  · simp [verify_statement, List.all_eq_false, List.any_eq_false,
      Bool.not_eq_true]

/-- Witness for C2 at the test scenario: the sales query against the
permission `SELECT * FROM postgres.null.main.sales`. -/
theorem verify_query_all_any_witness :
    (verify_query salesGetCols "postgres" none (some "main") [salesQuery]
        [[permNull "main"]] = .ok true ↔
      ∀ st ∈ [Statement.mk ⟨[.unnamedExpr (.compoundIdentifier
            (qualifiedSales ++ [⟨none, some "event_time"⟩])),
          .unnamedExpr (.fn "SUM" [.compoundIdentifier
            (qualifiedSales ++ [⟨none, some "price"⟩])])],
          [⟨qualifiedSales, none⟩], none, []⟩],
        ∀ perm ∈ [[permNull "main"]],
          ∃ ps ∈ perm, matches_permission st ps = true) ∧
    (verify_query salesGetCols "postgres" none (some "main") [salesQuery]
        [[permNull "main"]] = .ok false ↔
      ∃ st ∈ [Statement.mk ⟨[.unnamedExpr (.compoundIdentifier
            (qualifiedSales ++ [⟨none, some "event_time"⟩])),
          .unnamedExpr (.fn "SUM" [.compoundIdentifier
            (qualifiedSales ++ [⟨none, some "price"⟩])])],
          [⟨qualifiedSales, none⟩], none, []⟩],
        ∃ perm ∈ [[permNull "main"]],
          ∀ ps ∈ perm, matches_permission st ps = false) :=
  verify_query_all_any salesGetCols "postgres" none (some "main")
    [salesQuery] _ [[permNull "main"]] rfl

/-! ## Claim C10: the empty permission list permits everything -/

/-- **Claim C10.**  `verify_statement(statement, [])` is `True` for every
statement — the outer `all` ranges over no permissions — so a query whose
qualification succeeds verifies to `True` against an empty permission
list. -/
theorem verify_statement_empty_permissions
    (getCols : Option String → Option String → List String)
    (database : String) (catalog schema : Option String)
    (tree tree' : List Statement)
    (prep : prepare_tree getCols database catalog schema tree = .ok tree') :
    (∀ st : Statement, verify_statement st [] = true) ∧
    verify_query getCols database catalog schema tree [] = .ok true := by
  refine ⟨fun st => rfl, ?_⟩
  unfold verify_query
  rw [prep]
  simp [bind, Except.bind, verify_statement]

/-- Witness for C10 at the test scenario: no permissions supplied, the
sales query is permitted. -/
theorem verify_statement_empty_permissions_witness :
    (∀ st : Statement, verify_statement st [] = true) ∧
    verify_query salesGetCols "postgres" none (some "main") [salesQuery] [] =
      .ok true :=
  verify_statement_empty_permissions salesGetCols "postgres" none (some "main")
    [salesQuery] _ rfl

/-! ## The metadata model (`models/node.py`, `models/database.py`)

A node is identified by its unique `name` (the model declares a unique
constraint), so the embedding records a node's parents by name; object
equality on the ORM side coincides with name equality.  A database carries
its primary key `id` and its numeric preference weight `cost` (a float in
the source; finite floats compare exactly like the rationals embedding
them, so `cost` is a rational here). -/

structure Node where
  name : String
  expression : Option String
  parents : List String
deriving DecidableEq, Repr

structure Database where
  id : Nat
  cost : ℚ
deriving DecidableEq, Repr

/-- Modelled from the spec: the reserved internal database id
(`datajunction/constants.py` is not part of this snapshot; only the
no-nodes branch, which no claim exercises, reads it). -/
def DJ_DATABASE_ID : Nat := 0

/-! ## Database selection (`get_database_for_nodes`, `sql/build.py`)

`get_computable_databases` lives in `datajunction/sql/dag.py`, which is not
part of this snapshot; it is abstracted as the collaborator
`computable node columns` (per spec §4.2 it returns the set of databases
holding every referenced column of the node).  `node_columns` is the
referenced-columns mapping (a `DefaultDict[str, Set[str]]` in the source,
so lookups are total).  CPython iterates the intersected `set` in an
implementation-defined order; the embedding fixes the order of the first
node's database list, which the stable sort then consumes. -/

/-- `set.intersection(*[get_computable_databases(node, node_columns[node.name])
for node in nodes])` for a non-empty node list: the members of the first
node's set lying in every other node's set. -/
def computableIntersection (computable : Node → List String → List Database)
    (node_columns : String → List String) (n : Node) (ns : List Node) :
    List Database :=
  (computable n (node_columns n.name)).filter fun d =>
    ns.all fun m => decide (d ∈ computable m (node_columns m.name))

/-- The candidate set: the intersection when nodes are passed, otherwise
every session database except the reserved internal one. -/
def candidateDatabases (session_databases : List Database)
    (computable : Node → List String → List Database)
    (node_columns : String → List String) : List Node → List Database
  | [] => session_databases.filter fun d => decide (d.id ≠ DJ_DATABASE_ID)
  | n :: ns => computableIntersection computable node_columns n ns

/-- The sort key of `sorted(databases, key=attrgetter("cost"))`. -/
def costLE (a b : Database) : Prop := a.cost ≤ b.cost

instance : DecidableRel costLE := fun a b =>
  inferInstanceAs (Decidable (a.cost ≤ b.cost))

instance : IsTotal Database costLE := ⟨fun a b => le_total a.cost b.cost⟩

instance : IsTrans Database costLE := ⟨fun _ _ _ => le_trans⟩

/-- `get_database_for_nodes(session, nodes, node_columns, database_id)`:
intersect the nodes' computable-database sets (or, with no nodes, take
every session database except the reserved one); fail when empty; honour a
caller-supplied database id when it is a member, fail when it is not; else
return the head of the stable sort by cost.  (`insertionSort` is a stable
sort, like Python's; the guarded `IndexError` branch keeps `sorted(…)[0]`
total.) -/
def get_database_for_nodes (session_databases : List Database)
    (computable : Node → List String → List Database)
    (node_columns : String → List String)
    (nodes : List Node) (database_id : Option Nat) : Except String Database :=
  let databases := candidateDatabases session_databases computable node_columns nodes
  if databases.isEmpty then .error "No valid database was found"
  else
    match database_id with
    | some did =>
        match databases.find? (fun d => decide (d.id = did)) with
        | some d => .ok d
        | none => .error ("Database ID " ++ toString did ++ " is not valid")
    | none =>
        match databases.insertionSort costLE with
        | [] => .error "IndexError"
        | d :: _ => .ok d

/-! ## Claim C3: database resolution for a non-empty node list -/

/-- **Claim C3.**  For a non-empty node list, `get_database_for_nodes`
considers exactly the intersection of the nodes' computable-database sets:
(a) the candidate list's members are precisely the databases computable by
every node; (b) an empty intersection raises the no-valid-database error;
(c) a caller-supplied database id that is a member is returned, (d) one
that is not a member raises; (e) with no caller-supplied id, a lowest-cost
member of the intersection is returned. -/
theorem get_database_for_nodes_spec (session_databases : List Database)
    (computable : Node → List String → List Database)
    (node_columns : String → List String) (n : Node) (ns : List Node)
    (database_id : Option Nat) :
    (∀ d, d ∈ computableIntersection computable node_columns n ns ↔
      ∀ m ∈ n :: ns, d ∈ computable m (node_columns m.name)) ∧
    (computableIntersection computable node_columns n ns = [] →
      get_database_for_nodes session_databases computable node_columns
        (n :: ns) database_id = .error "No valid database was found") ∧
    (∀ i, database_id = some i →
      ((∃ d ∈ computableIntersection computable node_columns n ns, d.id = i) →
        ∃ d, get_database_for_nodes session_databases computable node_columns
            (n :: ns) database_id = .ok d ∧
          d ∈ computableIntersection computable node_columns n ns ∧ d.id = i) ∧
      (computableIntersection computable node_columns n ns ≠ [] →
        (∀ d ∈ computableIntersection computable node_columns n ns, d.id ≠ i) →
        get_database_for_nodes session_databases computable node_columns
          (n :: ns) database_id =
            .error ("Database ID " ++ toString i ++ " is not valid"))) ∧
    (database_id = none →
      computableIntersection computable node_columns n ns ≠ [] →
      ∃ d, get_database_for_nodes session_databases computable node_columns
          (n :: ns) database_id = .ok d ∧
        d ∈ computableIntersection computable node_columns n ns ∧
        ∀ e ∈ computableIntersection computable node_columns n ns,
          d.cost ≤ e.cost) := by
  refine ⟨?_, ?_, ?_, ?_⟩
  · intro d
    simp [computableIntersection, List.mem_filter, List.all_eq_true, and_comm]
  · intro hempty
    simp only [get_database_for_nodes, candidateDatabases, hempty]
    simp
  · intro i hi
    constructor
    · rintro ⟨d, hd, hid⟩
      have hne : (computableIntersection computable node_columns n ns).isEmpty = false := by
        rw [List.isEmpty_eq_false]
        intro hnil
        rw [hnil] at hd
        cases hd
      have hfind :
          ((computableIntersection computable node_columns n ns).find?
            (fun e => decide (e.id = i))).isSome := by
        apply List.find?_isSome.mpr
        exact ⟨d, hd, by simp [hid]⟩
      cases hf : (computableIntersection computable node_columns n ns).find?
          (fun e => decide (e.id = i)) with
      | none => rw [hf] at hfind; cases hfind
      | some e =>
          refine ⟨e, ?_, List.mem_of_find?_eq_some hf, ?_⟩
          · simp only [get_database_for_nodes, candidateDatabases, hne,
              Bool.false_eq_true, if_false, hi, hf]
          · have := List.find?_some hf
            simpa using this
    · intro hne hnone
      have hne' : (computableIntersection computable node_columns n ns).isEmpty = false := by
        rw [List.isEmpty_eq_false]
        exact hne
      have hf : ((computableIntersection computable node_columns n ns).find?
          (fun e => decide (e.id = i))) = none := by
        apply List.find?_eq_none.mpr
        intro e he
        simpa using hnone e he
      simp only [get_database_for_nodes, candidateDatabases, hne',
        Bool.false_eq_true, if_false, hi, hf]
  · intro hi hne
    have hne' : (computableIntersection computable node_columns n ns).isEmpty = false := by
      rw [List.isEmpty_eq_false]
      exact hne
    have hperm := List.perm_insertionSort costLE
      (computableIntersection computable node_columns n ns)
    have hsorted := List.sorted_insertionSort costLE
      (computableIntersection computable node_columns n ns)
    cases hs : (computableIntersection computable node_columns n ns).insertionSort costLE with
    | nil =>
        exfalso
        rw [hs] at hperm
        exact hne (List.Perm.eq_nil hperm.symm)
    | cons d rest =>
        refine ⟨d, ?_, ?_, ?_⟩
        · simp only [get_database_for_nodes, candidateDatabases, hne',
            Bool.false_eq_true, if_false, hi, hs]
        · rw [hs] at hperm
          exact hperm.subset (List.mem_cons_self d rest)
        · intro e he
          rw [hs] at hperm hsorted
          have he' : e ∈ d :: rest := hperm.symm.subset he
          rcases List.mem_cons.mp he' with rfl | hmem
          · exact le_refl _
          · exact (List.sorted_cons.mp hsorted).1 e hmem

/-- Concrete collaborator for the C3 witness: two nodes, three databases,
intersection `{⟨1, 10⟩, ⟨2, 1⟩}`. -/
def demoComputable : Node → List String → List Database :=
  fun node _ =>
    if node.name = "metric" then [⟨1, 10⟩, ⟨2, 1⟩]
    else [⟨1, 10⟩, ⟨2, 1⟩, ⟨3, 5⟩]

def demoNodeColumns : String → List String := fun _ => []

def demoMetric : Node := ⟨"metric", some "SELECT COUNT(*) FROM parent", ["parent"]⟩

def demoDimension : Node := ⟨"dim", none, []⟩

/-- Witness for C3 at a concrete input: with no caller-supplied id the
lowest-cost member `⟨2, 1⟩` of the intersection is returned. -/
theorem get_database_for_nodes_spec_witness :
    ∃ d, get_database_for_nodes [] demoComputable demoNodeColumns
        [demoMetric, demoDimension] none = .ok d ∧
      d ∈ computableIntersection demoComputable demoNodeColumns demoMetric
        [demoDimension] ∧
      ∀ e ∈ computableIntersection demoComputable demoNodeColumns demoMetric
        [demoDimension], d.cost ≤ e.cost :=
  (get_database_for_nodes_spec [] demoComputable demoNodeColumns demoMetric
    [demoDimension] none).2.2.2 rfl (by decide)

/-! ## The filter mini-grammar (`FILTER_RE`, `sql/build.py`)

`FILTER_RE = re.compile(r"([\w\./_]+)(<=|<|>=|>|!=|=)(.+)")`, used with
`re.match` (anchored at the start only).  Group 1's character class is
disjoint from the operator characters, so the greedy first group is exactly
the maximal run of word/`.`/`/` characters and no backtracking can shorten
it; group 2 tries the alternatives in the written order (`<=` before `<`,
`>=` before `>`); group 3 (`.+`, no `DOTALL`) is the maximal non-empty run
of characters up to a newline or the end — the regex has no end anchor.
The engine backtracks between groups 2 and 3: when `<=` (or `>=`) leaves
nothing for `.+` — the string ends, or a newline follows — the alternation
falls back to `<` (or `>`) and the `=` becomes the first value character,
so `FILTER_RE.match("x<=")` yields `("x", "<", "=")`.  No such fallback
exists for `!=` or `=` (no alternative matches at `!` or at `=` exhausted),
so `"x!="` and `"x="` do not match at all.  `\w` is modelled over ASCII
(the repository only uses ASCII identifiers). -/

def isFilterNameChar (c : Char) : Bool :=
  c.isAlphanum || c = '_' || c = '.' || c = '/'

/-- The keys of the `COMPARISONS` dict, in insertion order (the order the
error message joins them in). -/
def COMPARISONS : List String := [">", ">=", "<", "<=", "=", "!="]

/-- Group 3: the maximal newline-free run, which must be non-empty. -/
def filterValue (r : List Char) : Option String :=
  let v := r.takeWhile fun c => decide (c ≠ '\n')
  if v.isEmpty then none else some (String.mk v)

/-- Groups 2 and 3: the operator alternation with its backtracking.  A
two-character `<=`/`>=` whose remainder gives `.+` nothing falls back to
the one-character operator, with the `=` opening the value. -/
def opValue : List Char → Option (String × String)
  | '<' :: '=' :: r =>
      if (filterValue r).isSome then (filterValue r).map fun v => ("<=", v)
      else (filterValue ('=' :: r)).map fun v => ("<", v)
  | '<' :: r => (filterValue r).map fun v => ("<", v)
  | '>' :: '=' :: r =>
      if (filterValue r).isSome then (filterValue r).map fun v => (">=", v)
      else (filterValue ('=' :: r)).map fun v => (">", v)
  | '>' :: r => (filterValue r).map fun v => (">", v)
  | '!' :: '=' :: r => (filterValue r).map fun v => ("!=", v)
  | '=' :: r => (filterValue r).map fun v => ("=", v)
  | _ => none

/-- `FILTER_RE.match(filter_)`, returning the three groups. -/
def parseFilter (filter_ : String) : Option (String × String × String) :=
  if (filter_.toList.takeWhile isFilterNameChar).isEmpty then none
  else
    (opValue (filter_.toList.dropWhile isFilterNameChar)).map fun ov =>
      (String.mk (filter_.toList.takeWhile isFilterNameChar), ov.1, ov.2)

/-- Every operator the alternation can produce — through the direct
alternatives or the backtracking fallbacks — is a key of `COMPARISONS`. -/
theorem opValue_mem (rest : List Char) (op v : String)
    (h : opValue rest = some (op, v)) : op ∈ COMPARISONS := by
  unfold opValue at h
  split at h <;>
    first
      | (split at h <;>
          (rcases Option.map_eq_some'.mp h with ⟨w, hw, heq⟩
           simp only [Prod.mk.injEq] at heq
           rcases heq with ⟨h1, h2⟩
           subst h1
           decide))
      | (rcases Option.map_eq_some'.mp h with ⟨w, hw, heq⟩
         simp only [Prod.mk.injEq] at heq
         rcases heq with ⟨h1, h2⟩
         subst h1
         decide)
      | cases h

/-- Every operator the filter regex can produce is a key of `COMPARISONS`
— the `Invalid operation` branch of `get_filter` is unreachable. -/
theorem parseFilter_op_mem (filter_ name op value : String)
    (h : parseFilter filter_ = some (name, op, value)) : op ∈ COMPARISONS := by
  unfold parseFilter at h
  split at h
  · cases h
  · rcases Option.map_eq_some'.mp h with ⟨⟨o, w⟩, how, heq⟩
    simp only [Prod.mk.injEq] at heq
    rcases heq with ⟨h1, h2, h3⟩
    subst h2
    exact opValue_mem _ _ _ how

/-- `get_dimensions_from_filters(filters)`: the first regex group of every
filter, failing on the first filter the regex rejects.  (The source
collects the names into a `set`; the caller unions and dedups, which the
dimension check below reflects.) -/
def get_dimensions_from_filters (filters : List String) :
    Except String (List String) :=
  filters.mapM fun f =>
    match parseFilter f with
    | none => .error ("Invalid filter: " ++ f)
    | some (name, _, _) => .ok name

/-- Python's `sorted` on strings: code-point lexicographic, and stable —
on the distinct strings it is applied to here, the unique sorted order. -/
def sortStrings (l : List String) : List String :=
  l.insertionSort (· ≤ ·)

/-- The dimension-validation opening of `get_query_for_node` (`sql/build.py`):
`requested = set(groupbys) | get_dimensions_from_filters(filters)`; if it is
not a subset of the valid dimensions, raise `Invalid dimension(s): …`
listing `sorted(requested - valid)`.  The valid-dimension set
`get_dimensions(node)` lives in `datajunction/sql/dag.py`, which is not in
this snapshot, so it is the parameter `valid_dimensions`; the synthesis
steps after the check depend on further absent collaborators and no claim
reaches them. -/
def get_query_for_node_check (valid_dimensions : List String)
    (groupbys filters : List String) : Except String Unit := do
  let fdims ← get_dimensions_from_filters filters
  let invalid := sortStrings
    (((groupbys ++ fdims).filter fun d => decide (d ∉ valid_dimensions)).dedup)
  if invalid.isEmpty then .ok ()
  else
    .error ("Invalid dimension" ++ (if 1 < invalid.length then "s" else "")
      ++ ": " ++ String.intercalate ", " invalid)

/-! ## Claim C4: dimension validation -/

/-- **Claim C4.**  With filters the regex accepts (hypothesis `hf`),
validation proceeds iff every requested dimension — group-bys plus the
identifiers extracted from filters — is valid; otherwise it raises the
invalid-dimension error whose listed names are exactly the requested
dimensions that are not valid, without duplicates and sorted. -/
theorem get_query_for_node_dimensions (valid_dimensions groupbys filters
    fdims : List String)
    (hf : get_dimensions_from_filters filters = .ok fdims) :
    (get_query_for_node_check valid_dimensions groupbys filters = .ok () ↔
      ∀ d ∈ groupbys ++ fdims, d ∈ valid_dimensions) ∧
    ((¬ ∀ d ∈ groupbys ++ fdims, d ∈ valid_dimensions) →
      get_query_for_node_check valid_dimensions groupbys filters =
        .error ("Invalid dimension" ++
          (if 1 < (sortStrings (((groupbys ++ fdims).filter
              fun d => decide (d ∉ valid_dimensions)).dedup)).length
            then "s" else "") ++ ": " ++
          String.intercalate ", " (sortStrings (((groupbys ++ fdims).filter
            fun d => decide (d ∉ valid_dimensions)).dedup)))) ∧
    (∀ d, d ∈ sortStrings (((groupbys ++ fdims).filter
        fun d => decide (d ∉ valid_dimensions)).dedup) ↔
      d ∈ groupbys ++ fdims ∧ d ∉ valid_dimensions) ∧
    (sortStrings (((groupbys ++ fdims).filter
        fun d => decide (d ∉ valid_dimensions)).dedup)).Sorted (· ≤ ·) ∧
    (sortStrings (((groupbys ++ fdims).filter
        fun d => decide (d ∉ valid_dimensions)).dedup)).Nodup := by
  have hmem : ∀ d, d ∈ sortStrings (((groupbys ++ fdims).filter
      fun d => decide (d ∉ valid_dimensions)).dedup) ↔
      d ∈ groupbys ++ fdims ∧ d ∉ valid_dimensions := by
    intro d
    unfold sortStrings
    rw [List.Perm.mem_iff (List.perm_insertionSort _ _)]
    simp [List.mem_dedup, List.mem_filter, or_and_right]
  refine ⟨?_, ?_, hmem, ?_, ?_⟩
  · unfold get_query_for_node_check
    rw [hf]
    simp only [bind, Except.bind]
    constructor
    · intro h d hd
      by_contra hnv
      have hne : ¬ (sortStrings (((groupbys ++ fdims).filter
          fun d => decide (d ∉ valid_dimensions)).dedup)).isEmpty = true := by
        rw [List.isEmpty_iff]
        intro hnil
        have := (hmem d).mpr ⟨hd, hnv⟩
        rw [hnil] at this
        cases this
      rw [if_neg hne] at h
      cases h
    · intro h
      have hnil : sortStrings (((groupbys ++ fdims).filter
          fun d => decide (d ∉ valid_dimensions)).dedup) = [] := by
        by_contra hne
        rcases List.exists_mem_of_ne_nil _ hne with ⟨d, hd⟩
        exact ((hmem d).mp hd).2 (h d ((hmem d).mp hd).1)
      rw [hnil]
      rfl
  · intro hnot
    unfold get_query_for_node_check
    rw [hf]
    simp only [bind, Except.bind]
    rw [if_neg ?_]
    rw [List.isEmpty_iff]
    push_neg at hnot
    rcases hnot with ⟨d, hd, hnv⟩
    intro hnil
    have := (hmem d).mpr ⟨hd, hnv⟩
    rw [hnil] at this
    cases this
  · exact List.sorted_insertionSort _ _
  · apply (List.perm_insertionSort _ _).nodup_iff.mpr
    exact List.nodup_dedup _

/-- Witness for C4 at a concrete input: the filter `b.y<=` parses through
the regex's backtracking fallback as `(b.y, <, =)`, so validation is
reached and the unknown dimension `b.y`, next to the known `a.x`, fails
listing exactly `b.y`. -/
theorem get_query_for_node_dimensions_witness :
    get_query_for_node_check ["a.x"] ["a.x"] ["b.y<="] =
      .error ("Invalid dimension" ++ "" ++ ": " ++ "b.y") :=
  ((get_query_for_node_dimensions ["a.x"] ["a.x"] ["b.y<="] ["b.y"] rfl).2.1
    (by decide))

/-! ## Filter construction (`get_filter`, `sql/build.py`)

`get_filter` delegates literal parsing to the Python standard library's
`ast.literal_eval`, an external collaborator here (`literal_eval`); the
spelling it accepts is Python's — `True`, `False`, `None`, never the
lowercase `true`/`false`/`null` of generic SQL literals. -/

/-- The value `ast.literal_eval` can return in this fragment. -/
inductive Lit where
  | int (n : Int)
  | str (s : String)
  | bool (b : Bool)
  | pyNone
deriving DecidableEq, Repr

/-- The value `get_filter` builds: `comparison(column, value)`, a
sqlalchemy `BinaryExpression` recording the column, the operator and the
literal operand. -/
structure BinaryFilter where
  column : String
  op : String
  value : Lit
deriving DecidableEq, Repr

/-- `get_filter(columns, filter_)`: match the regex (else
`Invalid filter`), require a known column name (else `Invalid column name`),
require the operator key (unreachable failure, since the regex only emits
the six keys — `parseFilter_op_mem`; else `Invalid operation`), evaluate
the literal (else `Invalid value`). -/
def get_filter_matched (literal_eval : String → Option Lit)
    (columns : List String) (name op value : String) : Except String BinaryFilter :=
  if name ∈ columns then
    if op ∈ COMPARISONS then
      match literal_eval value with
      | some v => .ok ⟨name, op, v⟩
      | none => .error ("Invalid value: " ++ value)
    else
      .error ("Invalid operation: " ++ op ++ " (valid: " ++
        String.intercalate ", " COMPARISONS ++ ")")
  else
    .error ("Invalid column name: " ++ name)

def get_filter (literal_eval : String → Option Lit) (columns : List String)
    (filter_ : String) : Except String BinaryFilter :=
  match parseFilter filter_ with
  | none => .error ("Invalid filter: " ++ filter_)
  | some (name, op, value) =>
      get_filter_matched literal_eval columns name op value

/-- Modelled collaborator: `ast.literal_eval` on the fragment the theorems
exercise — `True`/`False`/`None`, optionally negated decimal integers, and
double-quoted strings without escapes.  Everything else maps to `none`
(Python raises `ValueError`); the theorems only rely on its values at the
concrete strings appearing in them, each checked against CPython —
in particular `literal_eval("null")` and `literal_eval("true")` raise,
because Python spells these literals `None` and `True`. -/
def digitsToNat (cs : List Char) : Nat :=
  cs.foldl (fun n c => n * 10 + (c.toNat - 48)) 0

def pyLiteralEval (s : String) : Option Lit :=
  let cs := s.toList
  if s = "True" then some (.bool true)
  else if s = "False" then some (.bool false)
  else if s = "None" then some .pyNone
  else if !cs.isEmpty && cs.all Char.isDigit then
    some (.int (digitsToNat cs))
  else if cs.head? = some '-' && !cs.tail.isEmpty && cs.tail.all Char.isDigit then
    some (.int (-(digitsToNat cs.tail : Int)))
  else if 2 ≤ cs.length && cs.head? = some '"' && cs.getLast? = some '"' &&
      (cs.drop 1).dropLast.all (fun c => c ≠ '"' && c ≠ '\\') then
    some (.str (String.mk ((cs.drop 1).dropLast)))
  else none

/-! ## Claim C5: `get_filter` -/

/-- **Claim C5, counterexample.**  The claim lists `null` among the generic
literal forms `get_filter` accepts; but the code hands the literal to
Python's evaluator, which rejects the lowercase spelling — `x=null` over a
known column `x` fails with `Invalid value: null` instead of succeeding. -/
theorem get_filter_lowercase_null_counterexample :
    get_filter pyLiteralEval ["x"] "x=null" =
      .error ("Invalid value: null") := rfl

/-- **Claim C5, amended.**  `get_filter` succeeds exactly on filter strings
of the form `<identifier><op><literal>` with `op` among the six comparison
keys (which the regex guarantees), a known column name, and a literal the
Python literal evaluator accepts (capitalised `True`/`False`/`None`, not
`true`/`false`/`null`); each failure mode — syntax, unknown column,
unparsable literal — raises its own error naming the offending part, and
the unsupported-operator error exists but is unreachable from the regex. -/
theorem get_filter_spec (literal_eval : String → Option Lit)
    (columns : List String) (filter_ : String) :
    ((∃ b, get_filter literal_eval columns filter_ = .ok b) ↔
      ∃ name op value, parseFilter filter_ = some (name, op, value) ∧
        name ∈ columns ∧ ∃ v, literal_eval value = some v) ∧
    (∀ name op value v, parseFilter filter_ = some (name, op, value) →
      name ∈ columns → literal_eval value = some v →
      get_filter literal_eval columns filter_ = .ok ⟨name, op, v⟩ ∧
        op ∈ COMPARISONS) ∧
    (parseFilter filter_ = none →
      get_filter literal_eval columns filter_ =
        .error ("Invalid filter: " ++ filter_)) ∧
    (∀ name op value, parseFilter filter_ = some (name, op, value) →
      name ∉ columns →
      get_filter literal_eval columns filter_ =
        .error ("Invalid column name: " ++ name)) ∧
    (∀ name op value, parseFilter filter_ = some (name, op, value) →
      name ∈ columns → literal_eval value = none →
      get_filter literal_eval columns filter_ =
        .error ("Invalid value: " ++ value)) := by
  have hmatched : ∀ name op value,
      parseFilter filter_ = some (name, op, value) →
      get_filter literal_eval columns filter_ =
        get_filter_matched literal_eval columns name op value := by
    intro name op value hp
    unfold get_filter
    rw [hp]
  refine ⟨?_, ?_, ?_, ?_, ?_⟩
  · constructor
    · rintro ⟨b, hb⟩
      cases hp : parseFilter filter_ with
      | none =>
          have hb' : (Except.error ("Invalid filter: " ++ filter_) :
              Except String BinaryFilter) = Except.ok b := by
            rw [← hb]
            unfold get_filter
            rw [hp]
          cases hb'
      | some triple =>
          rcases triple with ⟨name, op, value⟩
          rw [hmatched name op value hp] at hb
          unfold get_filter_matched at hb
          by_cases hc : name ∈ columns
          · rw [if_pos hc] at hb
            by_cases ho : op ∈ COMPARISONS
            · rw [if_pos ho] at hb
              cases hv : literal_eval value with
              | none => rw [hv] at hb; cases hb
              | some v => exact ⟨name, op, value, rfl, hc, v, hv⟩
            · rw [if_neg ho] at hb; cases hb
          · rw [if_neg hc] at hb; cases hb
    · rintro ⟨name, op, value, hp, hc, v, hv⟩
      refine ⟨⟨name, op, v⟩, ?_⟩
      rw [hmatched name op value hp]
      unfold get_filter_matched
      rw [if_pos hc, if_pos (parseFilter_op_mem filter_ name op value hp), hv]
  · intro name op value v hp hc hv
    have ho := parseFilter_op_mem filter_ name op value hp
    refine ⟨?_, ho⟩
    rw [hmatched name op value hp]
    unfold get_filter_matched
    rw [if_pos hc, if_pos ho, hv]
  · intro hp
    unfold get_filter
    rw [hp]
  · intro name op value hp hc
    rw [hmatched name op value hp]
    unfold get_filter_matched
    rw [if_neg hc]
  · intro name op value hp hc hv
    rw [hmatched name op value hp]
    unfold get_filter_matched
    rw [if_pos hc, if_pos (parseFilter_op_mem filter_ name op value hp), hv]

/-- Witness for C5's amended theorem at concrete inputs: `x>=-2` parses,
names the known column `x`, and the evaluator accepts `-2`; and `x<=` —
which the regex backtracks into `(x, <, =)` — reaches the literal
evaluator and fails as an invalid value, not as filter syntax. -/
theorem get_filter_spec_witness :
    (get_filter pyLiteralEval ["x"] "x>=-2" = .ok ⟨"x", ">=", .int (-2)⟩ ∧
      ">=" ∈ COMPARISONS) ∧
    get_filter pyLiteralEval ["x"] "x<=" = .error ("Invalid value: =") :=
  ⟨(get_filter_spec pyLiteralEval ["x"] "x>=-2").2.1 "x" ">=" "-2"
      (Lit.int (-2)) (by decide) (by decide) (by rfl),
    (get_filter_spec pyLiteralEval ["x"] "x<=").2.2.2.2 "x" "<" "="
      (by decide) (by decide) (by rfl)⟩

/-! ## The SQL-level metric rewriter (`get_new_projection_and_from`, `sql/build.py`)

Collaborators abstracted: `lookupNode` (the session query by node name, with
nodes identified by their unique names — node object equality on the ORM
side is row identity, i.e. name equality), `is_metric` (from
`datajunction/sql/parse.py`, not in this snapshot) and `parseExpr` (the
external grammar parser applied to a node's defining expression). -/

/-- A raw parser value slot, always a string before qualification (a `None`
here would already be a `TypeError` in the source's `".".join`). -/
def rawValue (p : NamePart) : String :=
  p.value.getD ""

/-- Modelled from the spec: `get_expression_from_projection`
(`datajunction/sql/parse.py`, not in this snapshot) returns the expression
under a projection entry, failing on shapes that carry none. -/
def get_expression_from_projection : SelectItem → Except String Expr
  | .unnamedExpr e => .ok e
  | .exprWithAlias e _ => .ok e
  | .wildcard => .error "Unable to handle projection"

/-- Python `set(a) == set(b)` on name lists. -/
def listSetEq (a b : List String) : Bool :=
  a.all (fun x => b.contains x) && b.all (fun x => a.contains x)

/-- The name under a projection expression: a bare `Identifier`'s value, or
a `CompoundIdentifier`'s values joined with `"."`; other shapes are kept
as-is by the rewriter. -/
def projectionName : Expr → Option String
  | .identifier p => some (rawValue p)
  | .compoundIdentifier ps => some (String.intercalate "." (ps.map rawValue))
  | _ => none

/-- One iteration of the rewriter's loop over the projection: unwrap the
entry (the unhandled-shape branch raises, as the source does — there via a
`NameError` on the unbound `expression`); non-name entries and names that
are no known node pass through; a known node must be a valid metric; the
first metric (while the accumulated `parents` list is empty) contributes
its parents, a later one must have the same parent *set* or the rewrite
fails; finally the metric's expression is parsed and its first projection
entry (aliased to the original or defaulted name) and first `FROM` item are
emitted — the `[0]` indexings raise `IndexError` when empty. -/
def projectionStep (lookupNode : String → Option Node)
    (is_metric : String → Bool) (parseExpr : String → List Statement)
    (item : SelectItem) (parents : List String) :
    Except String ((SelectItem × Option Table) × List String) := do
  let unwrapped ← match item with
    | .unnamedExpr e => .ok (e, (none : Option NamePart))
    | .exprWithAlias e a => .ok (e, some a)
    | .wildcard => .error "Unable to handle expression"
  match projectionName unwrapped.1 with
  | none => .ok ((item, none), parents)
  | some name =>
      let alias_ := unwrapped.2.getD ⟨some "\"", some name⟩
      match lookupNode name with
      | none => .ok ((item, none), parents)
      | some node =>
          match node.expression with
          | none => .error ("Not a valid metric: " ++ name)
          | some ex =>
              if ex = "" ∨ is_metric ex = false then
                .error ("Not a valid metric: " ++ name)
              else do
                let parents' ←
                  if parents.isEmpty then .ok (parents ++ node.parents)
                  else if listSetEq parents node.parents = false then
                    .error "All metrics should have the same parents"
                  else .ok parents
                match (parseExpr ex).head? with
                | none => .error "IndexError"
                | some st =>
                    match st.select.projection.head? with
                    | none => .error "IndexError"
                    | some proj0 => do
                        let expr ← get_expression_from_projection proj0
                        match st.select.froms.head? with
                        | none => .error "IndexError"
                        | some from0 =>
                            .ok ((.exprWithAlias expr alias_, some from0),
                              parents')

/-- `get_new_projection_and_from(session, projection, parents)`: the loop
over the projection entries, threading the `parents` accumulator the source
mutates in place and collecting the new projection and `FROM` lists. -/
def get_new_projection_and_from (lookupNode : String → Option Node)
    (is_metric : String → Bool) (parseExpr : String → List Statement) :
    List SelectItem → List String →
    Except String (List SelectItem × List Table × List String)
  | [], parents => .ok ([], [], parents)
  | item :: rest, parents => do
      let step ← projectionStep lookupNode is_metric parseExpr item parents
      let tail ← get_new_projection_and_from lookupNode is_metric parseExpr
        rest step.2
      .ok (step.1.1 :: tail.1, step.1.2.toList ++ tail.2.1, tail.2.2)

/-- `projectionStep` on a bare metric reference, fully characterised by the
collaborator answers. -/
theorem projectionStep_metric (lookupNode : String → Option Node)
    (is_metric : String → Bool) (parseExpr : String → List Statement)
    (q : Option String) (name : String) (node : Node) (ex : String)
    (st : Statement) (it : SelectItem) (exr : Expr) (f0 : Table)
    (parents : List String)
    (hl : lookupNode name = some node) (he : node.expression = some ex)
    (hne : ex ≠ "") (hm : is_metric ex = true)
    (hparse : (parseExpr ex).head? = some st)
    (hproj : st.select.projection.head? = some it)
    (hex : get_expression_from_projection it = .ok exr)
    (hfrom : st.select.froms.head? = some f0) :
    projectionStep lookupNode is_metric parseExpr
        (.unnamedExpr (.identifier ⟨q, some name⟩)) parents =
      if parents.isEmpty then
        .ok ((.exprWithAlias exr ⟨some "\"", some name⟩, some f0),
          parents ++ node.parents)
      else if listSetEq parents node.parents = false then
        .error "All metrics should have the same parents"
      else
        .ok ((.exprWithAlias exr ⟨some "\"", some name⟩, some f0), parents) := by
  unfold projectionStep
  simp only [bind, Except.bind, projectionName, rawValue, Option.getD,
    hl, he, hparse, hproj, hex, hfrom]
  have hcond : ¬(ex = "" ∨ is_metric ex = false) := by simp [hne, hm]
  rw [if_neg hcond]

/-! ## Claim C6: metrics must share parents -/

/-- Demo metadata for the C6 counterexample: `m1` is a valid metric with no
parents, `m2` a valid metric with parent `p`. -/
def demoLookup : String → Option Node :=
  fun name =>
    if name = "m1" then some ⟨"m1", some "SELECT COUNT(*) FROM p", []⟩
    else if name = "m2" then some ⟨"m2", some "SELECT SUM(x) FROM p", ["p"]⟩
    else none

def demoIsMetric : String → Bool := fun _ => true

/-- The external parser's answer for both demo metric expressions: an
aggregate projection over table `p`. -/
def demoParse : String → List Statement :=
  fun _ =>
    [⟨⟨[.unnamedExpr (.fn "COUNT" [.wildcardArg])],
      [⟨[⟨none, some "p"⟩], none⟩], none, []⟩⟩]

/-- **Claim C6, counterexample.**  The claim says a projection referencing
two metric nodes whose parent sets are not identical fails with the
parent-mismatch error.  But the accumulated `parents` list only guards
while non-empty: a first metric with *no* parents leaves it empty, so a
second metric with parent set `{p}` — not identical to the first's `{}` —
is accepted and contributes its parents instead of failing. -/
theorem get_new_projection_same_parents_counterexample :
    get_new_projection_and_from demoLookup demoIsMetric demoParse
        [.unnamedExpr (.identifier ⟨none, some "m1"⟩),
         .unnamedExpr (.identifier ⟨none, some "m2"⟩)] [] =
      .ok ([.exprWithAlias (.fn "COUNT" [.wildcardArg]) ⟨some "\"", some "m1"⟩,
            .exprWithAlias (.fn "COUNT" [.wildcardArg]) ⟨some "\"", some "m2"⟩],
           [⟨[⟨none, some "p"⟩], none⟩, ⟨[⟨none, some "p"⟩], none⟩],
           ["p"]) := rfl

/-- **Claim C6, amended.**  During the SQL-level rewrite of a projection
referencing two valid metric nodes, where the first metric's parent list is
non-empty: if the two parent *sets* differ the rewrite fails with
`All metrics should have the same parents`, and if they are equal as sets
both metrics are accepted, each substituted by its parsed defining
projection under its alias, with the parents' `FROM` items appended.  (A
metric reached while the accumulated parent list is still empty — the first
one, or any after only parentless metrics — extends the list instead of
being checked, as the counterexample shows.) -/
theorem get_new_projection_same_parents (lookupNode : String → Option Node)
    (is_metric : String → Bool) (parseExpr : String → List Statement)
    (q1 q2 : Option String) (name1 name2 : String) (n1 n2 : Node)
    (e1 e2 : String) (st1 st2 : Statement) (it1 it2 : SelectItem)
    (ex1 ex2 : Expr) (f1 f2 : Table)
    (hl1 : lookupNode name1 = some n1) (hl2 : lookupNode name2 = some n2)
    (he1 : n1.expression = some e1) (he2 : n2.expression = some e2)
    (hne1 : e1 ≠ "") (hne2 : e2 ≠ "")
    (hm1 : is_metric e1 = true) (hm2 : is_metric e2 = true)
    (hparse1 : (parseExpr e1).head? = some st1)
    (hparse2 : (parseExpr e2).head? = some st2)
    (hproj1 : st1.select.projection.head? = some it1)
    (hproj2 : st2.select.projection.head? = some it2)
    (hex1 : get_expression_from_projection it1 = .ok ex1)
    (hex2 : get_expression_from_projection it2 = .ok ex2)
    (hfrom1 : st1.select.froms.head? = some f1)
    (hfrom2 : st2.select.froms.head? = some f2)
    (hp1 : n1.parents ≠ []) :
    (listSetEq n1.parents n2.parents = false →
      get_new_projection_and_from lookupNode is_metric parseExpr
          [.unnamedExpr (.identifier ⟨q1, some name1⟩),
           .unnamedExpr (.identifier ⟨q2, some name2⟩)] [] =
        .error "All metrics should have the same parents") ∧
    (listSetEq n1.parents n2.parents = true →
      get_new_projection_and_from lookupNode is_metric parseExpr
          [.unnamedExpr (.identifier ⟨q1, some name1⟩),
           .unnamedExpr (.identifier ⟨q2, some name2⟩)] [] =
        .ok ([.exprWithAlias ex1 ⟨some "\"", some name1⟩,
              .exprWithAlias ex2 ⟨some "\"", some name2⟩],
             [f1, f2], n1.parents)) := by
  have s1 : projectionStep lookupNode is_metric parseExpr
      (.unnamedExpr (.identifier ⟨q1, some name1⟩)) [] =
      .ok ((.exprWithAlias ex1 ⟨some "\"", some name1⟩, some f1), n1.parents) := by
    rw [projectionStep_metric lookupNode is_metric parseExpr q1 name1 n1 e1
      st1 it1 ex1 f1 [] hl1 he1 hne1 hm1 hparse1 hproj1 hex1 hfrom1]
    simp
  have hp1e : n1.parents.isEmpty = false := by
    rw [List.isEmpty_eq_false]
    exact hp1
  have s2 := projectionStep_metric lookupNode is_metric parseExpr q2 name2 n2
    e2 st2 it2 ex2 f2 n1.parents hl2 he2 hne2 hm2 hparse2 hproj2 hex2 hfrom2
  rw [hp1e] at s2
  simp only [Bool.false_eq_true, if_false] at s2
  constructor
  · intro hdiff
    rw [hdiff] at s2
    simp only [if_pos] at s2
    unfold get_new_projection_and_from
    rw [s1]
    simp only [bind, Except.bind]
    unfold get_new_projection_and_from
    rw [s2]
    simp only [bind, Except.bind]
  · intro hsame
    rw [hsame] at s2
    simp only [Bool.true_eq_false, if_false] at s2
    unfold get_new_projection_and_from
    rw [s1]
    simp only [bind, Except.bind]
    unfold get_new_projection_and_from
    rw [s2]
    simp only [bind, Except.bind]
    unfold get_new_projection_and_from
    rfl

/-- Demo metadata for the C6 witness: two valid metrics sharing the parent
set `{p}`. -/
def demoLookupShared : String → Option Node :=
  fun name =>
    if name = "m1" then some ⟨"m1", some "SELECT COUNT(*) FROM p", ["p"]⟩
    else if name = "m2" then some ⟨"m2", some "SELECT SUM(x) FROM p", ["p"]⟩
    else none

/-! ## Characterising the phases of `prepare_tree`

Phase 1 never fails: padding always leaves at least the two name parts the
column introspection unpacks, so it is a pure map over the tree's tables
together with a pure fold building the two dicts. -/

theorem bind_ok_eq {α β : Type} (a : α) (f : α → Except String β) :
    Bind.bind (Except.ok a) f = f a := rfl

theorem bind_error_eq {α β : Type} (e : String) (f : α → Except String β) :
    Bind.bind (Except.error e) f = (Except.error e : Except String β) := rfl

theorem two_le_exists {α : Type} : ∀ (m : List α), 2 ≤ m.length →
    ∃ x y r, m = x :: y :: r
  | x :: y :: r, _ => ⟨x, y, r, rfl⟩

/-- The value `get_column_names` returns on a name of at least two parts. -/
def get_column_names_pure (getCols : Option String → Option String → List String)
    (name : List NamePart) : List String :=
  match name.reverse with
  | tbl :: sch :: _ => getCols sch.value tbl.value
  | _ => []

theorem get_column_names_eq (getCols : Option String → Option String → List String)
    (name : List NamePart) (h : 2 ≤ name.length) :
    get_column_names getCols name = .ok (get_column_names_pure getCols name) := by
  have h2 : 2 ≤ name.reverse.length := by simpa using h
  obtain ⟨x, y, r, hxy⟩ := two_le_exists name.reverse h2
  unfold get_column_names get_column_names_pure
  rw [hxy]

theorem padTableName_two (database : String) (catalog schema : Option String)
    (nm : List NamePart) :
    2 ≤ (padTableName (padParts database catalog schema) nm).length := by
  rcases nm with _ | ⟨a, _ | ⟨b, tl⟩⟩
  · simp [padTableName, pyTake, padParts]
  · simp [padTableName, pyTake, padParts]
  · simp only [padTableName, List.length_append, List.length_cons]
    omega

/-- The pure fold computing the `columns`/`tables` dicts of phase 1. -/
def buildMaps (getCols : Option String → Option String → List String)
    (pad : List NamePart) : List Table → Maps → Maps
  | [], m => m
  | t :: ts, m =>
      buildMaps getCols pad ts
        ⟨upsert m.columns (tableKey (qualifyTable pad t).name)
            (get_column_names_pure getCols (qualifyTable pad t).name),
          upsert m.tables (tableKey (qualifyTable pad t).name) (qualifyTable pad t)⟩

/-- Phase 1 over one `FROM` list is the pure map and fold. -/
theorem qualifyTables_eq (getCols : Option String → Option String → List String)
    (database : String) (catalog schema : Option String) :
    ∀ (ts : List Table) (m : Maps),
    qualifyTables getCols (padParts database catalog schema) ts m =
      .ok (ts.map (qualifyTable (padParts database catalog schema)),
        buildMaps getCols (padParts database catalog schema) ts m)
  | [], m => rfl
  | t :: ts, m => by
      unfold qualifyTables buildMaps
      have hg : get_column_names getCols
          (qualifyTable (padParts database catalog schema) t).name =
          .ok (get_column_names_pure getCols
            (qualifyTable (padParts database catalog schema) t).name) :=
        get_column_names_eq getCols _
          (padTableName_two database catalog schema t.name)
      rw [hg, bind_ok_eq,
        qualifyTables_eq getCols database catalog schema ts, bind_ok_eq]
      rfl

/-- The per-statement effect of phase 1: every table of the statement is
padded in place. -/
def padStatement (pad : List NamePart) (st : Statement) : Statement :=
  Statement.mk { st.select with
    froms := st.select.froms.map (qualifyTable pad) }

/-- The dicts after phase 1 over the whole tree. -/
def buildTreeMaps (getCols : Option String → Option String → List String)
    (pad : List NamePart) : List Statement → Maps → Maps
  | [], m => m
  | st :: sts, m =>
      buildTreeMaps getCols pad sts (buildMaps getCols pad st.select.froms m)

/-- Phase 1 over the whole tree is a pure map over statements. -/
theorem qualifyTreeTables_eq (getCols : Option String → Option String → List String)
    (database : String) (catalog schema : Option String) :
    ∀ (tree : List Statement) (m : Maps),
    qualifyTreeTables getCols (padParts database catalog schema) tree m =
      .ok (tree.map (padStatement (padParts database catalog schema)),
        buildTreeMaps getCols (padParts database catalog schema) tree m)
  | [], m => rfl
  | st :: sts, m => by
      unfold qualifyTreeTables buildTreeMaps
      rw [qualifyTables_eq getCols database catalog schema, bind_ok_eq]
      rw [qualifyTreeTables_eq getCols database catalog schema sts, bind_ok_eq]
      rfl

theorem mapME_ok {α β : Type} {f : α → Except String β} :
    ∀ {l : List α} {l' : List β}, mapME f l = .ok l' →
      List.Forall₂ (fun a b => f a = .ok b) l l' := by
  intro l
  induction l with
  | nil =>
      intro l' h
      cases h
      exact .nil
  | cons a as ih =>
      intro l' h
      unfold mapME at h
      cases hf : f a with
      | error e => rw [hf, bind_error_eq] at h; cases h
      | ok b =>
          rw [hf, bind_ok_eq] at h
          cases hrest : mapME f as with
          | error e => rw [hrest, bind_error_eq] at h; cases h
          | ok bs =>
              rw [hrest, bind_ok_eq] at h
              cases h
              exact .cons hf (ih hrest)

/-- Alias collection leaves alias-free tables untouched and records
nothing. -/
theorem collectAliases_aliasfree :
    ∀ (ts : List Table) (m : List (Option String × List NamePart)),
      (∀ t ∈ ts, t.alias_ = none) → collectAliases ts m = (m, ts)
  | [], m, _ => rfl
  | t :: ts, m, h => by
      unfold collectAliases
      rw [h t (List.mem_cons_self t ts)]
      rw [collectAliases_aliasfree ts m (fun u hu => h u (List.mem_cons_of_mem t hu))]

/-- Alias collection erases every alias and keeps the tables in place. -/
theorem collectAliases_snd :
    ∀ (ts : List Table) (m : List (Option String × List NamePart)),
      (collectAliases ts m).2 = ts.map (fun t => { t with alias_ := none })
  | [], _ => rfl
  | t :: ts, m => by
      rcases t with ⟨nm, al⟩
      cases al with
      | none =>
          unfold collectAliases
          simp only [List.map_cons]
          rw [collectAliases_snd ts m]
      | some a =>
          unfold collectAliases
          simp only [List.map_cons]
          rw [collectAliases_snd ts (upsert m a.value nm)]

/-- The expression rewriting passes do not touch the `FROM` list. -/
theorem rewriteExprs_froms (fi : NamePart → Except String Expr)
    (fc : List NamePart → Except String (List NamePart)) (s s' : Select)
    (h : Select.rewriteExprs fi fc s = .ok s') : s'.froms = s.froms := by
  unfold Select.rewriteExprs at h
  cases hp : mapME (SelectItem.rewrite fi fc) s.projection with
  | error e => rw [hp, bind_error_eq] at h; cases h
  | ok proj =>
      rw [hp, bind_ok_eq] at h
      cases hsel : rewriteSelection fi fc s.selection with
      | error e => rw [hsel, bind_error_eq] at h; cases h
      | ok sel =>
          rw [hsel, bind_ok_eq] at h
          cases hg : mapME (Expr.rewrite fi fc) s.group_by with
          | error e => rw [hg, bind_error_eq] at h; cases h
          | ok gb =>
              rw [hg, bind_ok_eq] at h
              cases h
              rfl

/-- Phase 2 maps the `FROM` list to its alias-erased form. -/
theorem qualifySelect_froms (pad : List NamePart) (m : Maps) (s s' : Select)
    (h : qualifySelect pad m s = .ok s') :
    s'.froms = s.froms.map (fun t => { t with alias_ := none }) := by
  unfold qualifySelect at h
  cases h2 : Select.rewriteExprs (fun p => .ok (.identifier p))
      (rewriteCid pad (collectAliases s.froms []).1)
      { s with froms := (collectAliases s.froms []).2 } with
  | error e => rw [h2, bind_error_eq] at h; cases h
  | ok s2 =>
      rw [h2, bind_ok_eq] at h
      have hf2 := rewriteExprs_froms _ _ _ _ h2
      have hf3 := rewriteExprs_froms _ _ _ _ h
      rw [hf3, hf2]
      exact collectAliases_snd s.froms []

/-- All table nodes of a tree, in traversal order. -/
def treeTables (tree : List Statement) : List Table :=
  (tree.map Statement.tables).flatten

theorem treeTables_map_qualify (pad : List NamePart) :
    ∀ (tree : List Statement),
      treeTables (tree.map (padStatement pad)) =
        (treeTables tree).map (qualifyTable pad)
  | [] => rfl
  | st :: sts => by
      unfold treeTables
      simp only [List.map_cons, List.flatten_cons, List.map_append]
      have hrec := treeTables_map_qualify pad sts
      unfold treeTables at hrec
      rw [hrec]
      simp [padStatement, Statement.tables]

/-- Phases 2 and 3 over the per-statement results erase aliases and keep
table names. -/
theorem treeTables_phase23 (pad : List NamePart) (m : Maps) :
    ∀ {l1 l2 : List Statement},
      List.Forall₂ (fun st1 st2 =>
        (do .ok (Statement.mk (← qualifySelect pad m st1.select)) :
          Except String Statement) = .ok st2) l1 l2 →
      treeTables (l2.map stripAliases) =
        (treeTables l1).map (fun t => { t with alias_ := none }) := by
  intro l1 l2 h
  induction h with
  | nil => rfl
  | @cons st1 st2 r1 r2 hR hrest ih =>
      cases hq : qualifySelect pad m st1.select with
      | error e => rw [hq, bind_error_eq] at hR; cases hR
      | ok s' =>
          rw [hq, bind_ok_eq] at hR
          cases hR
          unfold treeTables
          simp only [List.map_cons, List.flatten_cons, List.map_append]
          unfold treeTables at ih
          rw [ih]
          have hfr := qualifySelect_froms pad m _ _ hq
          show (stripAliases (Statement.mk s')).tables ++ _ = _
          unfold stripAliases Statement.tables
          simp only []
          rw [hfr]

/-- Witness for C6's amended theorem at a concrete input: two metrics with
the identical parent set `{p}` are accepted. -/
theorem get_new_projection_same_parents_witness :
    get_new_projection_and_from demoLookupShared demoIsMetric demoParse
        [.unnamedExpr (.identifier ⟨none, some "m1"⟩),
         .unnamedExpr (.identifier ⟨none, some "m2"⟩)] [] =
      .ok ([.exprWithAlias (.fn "COUNT" [.wildcardArg]) ⟨some "\"", some "m1"⟩,
            .exprWithAlias (.fn "COUNT" [.wildcardArg]) ⟨some "\"", some "m2"⟩],
           [⟨[⟨none, some "p"⟩], none⟩, ⟨[⟨none, some "p"⟩], none⟩],
           ["p"]) :=
  (get_new_projection_same_parents demoLookupShared demoIsMetric demoParse
    none none "m1" "m2" ⟨"m1", some "SELECT COUNT(*) FROM p", ["p"]⟩
    ⟨"m2", some "SELECT SUM(x) FROM p", ["p"]⟩
    "SELECT COUNT(*) FROM p" "SELECT SUM(x) FROM p"
    ⟨⟨[.unnamedExpr (.fn "COUNT" [.wildcardArg])],
      [⟨[⟨none, some "p"⟩], none⟩], none, []⟩⟩
    ⟨⟨[.unnamedExpr (.fn "COUNT" [.wildcardArg])],
      [⟨[⟨none, some "p"⟩], none⟩], none, []⟩⟩
    (.unnamedExpr (.fn "COUNT" [.wildcardArg]))
    (.unnamedExpr (.fn "COUNT" [.wildcardArg]))
    (.fn "COUNT" [.wildcardArg]) (.fn "COUNT" [.wildcardArg])
    ⟨[⟨none, some "p"⟩], none⟩ ⟨[⟨none, some "p"⟩], none⟩
    rfl rfl rfl rfl (by decide) (by decide) rfl rfl rfl rfl rfl rfl rfl rfl
    rfl rfl (by decide)).2 rfl

/-! ## Claim C8: full qualification and alias removal -/

/-- **Claim C8.**  After `prepare_tree` returns: every table reference of
the tree carries the name obtained by left-padding its original parts with
the caller-supplied `(database, catalog, schema)` parts, and no table alias
remains; a table of one to four original parts is padded to exactly four
parts; and a compound column reference through a table alias is rewritten
to the aliased table's canonical chain followed by the column (stated for a
statement `SELECT x.col FROM nm AS al` with `x` naming the alias). -/
theorem prepare_tree_qualification
    (getCols : Option String → Option String → List String)
    (database : String) (catalog schema : Option String)
    (tree tree' : List Statement)
    (hprep : prepare_tree getCols database catalog schema tree = .ok tree') :
    treeTables tree' = (treeTables tree).map
      (fun t => Table.mk (padTableName (padParts database catalog schema) t.name)
        none) ∧
    (∀ t ∈ treeTables tree, 1 ≤ t.name.length → t.name.length ≤ 4 →
      (padTableName (padParts database catalog schema) t.name).length = 4) ∧
    (∀ (getCols2 : Option String → Option String → List String)
        (nm : List NamePart) (al x col : NamePart), x.value = al.value →
      prepare_tree getCols2 database catalog schema
          [Statement.mk ⟨[.unnamedExpr (.compoundIdentifier [x, col])],
            [⟨nm, some al⟩], none, []⟩] =
        .ok [Statement.mk ⟨[.unnamedExpr (.compoundIdentifier
              (padTableName (padParts database catalog schema) nm ++ [col]))],
            [⟨padTableName (padParts database catalog schema) nm, none⟩],
            none, []⟩]) := by
  refine ⟨?_, ?_, ?_⟩
  · unfold prepare_tree at hprep
    rw [qualifyTreeTables_eq getCols database catalog schema, bind_ok_eq] at hprep
    cases h2 : mapME (fun st => do
        .ok (Statement.mk (← qualifySelect (padParts database catalog schema)
          (buildTreeMaps getCols (padParts database catalog schema) tree
            ⟨[], []⟩) st.select)))
        (tree.map (padStatement (padParts database catalog schema))) with
    | error e => rw [h2, bind_error_eq] at hprep; cases hprep
    | ok tree2 =>
        rw [h2, bind_ok_eq] at hprep
        cases hprep
        have hph := treeTables_phase23 (padParts database catalog schema)
          (buildTreeMaps getCols (padParts database catalog schema) tree
            ⟨[], []⟩) (mapME_ok h2)
        rw [hph, treeTables_map_qualify, List.map_map]
        rfl
  · intro t _ h1 h4
    rcases hnm : t.name with _ | ⟨a, _ | ⟨b, _ | ⟨c, _ | ⟨d, rest⟩⟩⟩⟩
    · rw [hnm] at h1; simp at h1
    · simp [padTableName, pyTake, padParts]
    · simp [padTableName, pyTake, padParts]
    · simp [padTableName, pyTake, padParts]
    · rcases rest with _ | ⟨e, r⟩
      · simp [padTableName, pyTake, padParts]
      · rw [hnm] at h4
        simp at h4
  · intro getCols2 nm al x col hx
    unfold prepare_tree
    rw [qualifyTreeTables_eq getCols2 database catalog schema, bind_ok_eq]
    have hcid : rewriteCid (padParts database catalog schema)
        [(al.value, padTableName (padParts database catalog schema) nm)]
        [x, col] = .ok (padTableName (padParts database catalog schema) nm
          ++ [col]) := by
      unfold rewriteCid
      simp [dlookup, hx]
    simp only [List.map_cons, List.map_nil, padStatement, qualifyTable,
      mapME, qualifySelect, Select.rewriteExprs, rewriteSelection,
      SelectItem.rewrite, Expr.rewrite, collectAliases, upsert,
      stripAliases, bind_ok_eq, bind_error_eq, hcid, List.map_cons,
      List.map_nil]

/-- Witness for C8 at the test scenario: the sales query, whose alias `s`
is resolved and removed and whose table is padded to
`postgres.<None>.main.sales`. -/
theorem prepare_tree_qualification_witness :
    treeTables [Statement.mk
        ⟨[.unnamedExpr (.compoundIdentifier
            (qualifiedSales ++ [⟨none, some "event_time"⟩])),
          .unnamedExpr (.fn "SUM" [.compoundIdentifier
            (qualifiedSales ++ [⟨none, some "price"⟩])])],
          [⟨qualifiedSales, none⟩], none, []⟩] =
      (treeTables [salesQuery]).map
        (fun t => Table.mk (padTableName (padParts "postgres" none (some "main"))
          t.name) none) ∧
    (∀ t ∈ treeTables [salesQuery], 1 ≤ t.name.length → t.name.length ≤ 4 →
      (padTableName (padParts "postgres" none (some "main")) t.name).length = 4) ∧
    (∀ (getCols2 : Option String → Option String → List String)
        (nm : List NamePart) (al x col : NamePart), x.value = al.value →
      prepare_tree getCols2 "postgres" none (some "main")
          [Statement.mk ⟨[.unnamedExpr (.compoundIdentifier [x, col])],
            [⟨nm, some al⟩], none, []⟩] =
        .ok [Statement.mk ⟨[.unnamedExpr (.compoundIdentifier
              (padTableName (padParts "postgres" none (some "main")) nm ++ [col]))],
            [⟨padTableName (padParts "postgres" none (some "main")) nm, none⟩],
            none, []⟩]) :=
  prepare_tree_qualification salesGetCols "postgres" none (some "main")
    [salesQuery] _ rfl

/-! ## Claim C7: bare identifier resolution -/

/-- **Claim C7.**  Qualifying a bare (non-compound) column identifier in a
statement over alias-free tables: `prepare_tree` fails with the
column-not-found error when the identifier's value occurs in no in-scope
table's recorded column list (no candidate key), fails with the ambiguity
error when it occurs under more than one candidate key, and with a unique
candidate replaces the identifier by the owning table's fully qualified
name chain followed by the identifier itself. -/
theorem prepare_tree_identifier_resolution
    (getCols : Option String → Option String → List String)
    (database : String) (catalog schema : Option String)
    (ts : List Table) (p : NamePart)
    (halias : ∀ t ∈ ts, t.alias_ = none) :
    (candidatesFor (buildMaps getCols (padParts database catalog schema) ts
        ⟨[], []⟩) p = [] →
      prepare_tree getCols database catalog schema
          [Statement.mk ⟨[.unnamedExpr (.identifier p)], ts, none, []⟩] =
        .error (errColumnNotFound p)) ∧
    (∀ k t, candidatesFor (buildMaps getCols (padParts database catalog schema)
        ts ⟨[], []⟩) p = [k] →
      dlookup (buildMaps getCols (padParts database catalog schema) ts
        ⟨[], []⟩).tables k = some t →
      prepare_tree getCols database catalog schema
          [Statement.mk ⟨[.unnamedExpr (.identifier p)], ts, none, []⟩] =
        .ok [Statement.mk ⟨[.unnamedExpr (.compoundIdentifier (t.name ++ [p]))],
          ts.map (fun tb => Table.mk
            (padTableName (padParts database catalog schema) tb.name) none),
          none, []⟩]) ∧
    (∀ k1 k2 krest, candidatesFor (buildMaps getCols
        (padParts database catalog schema) ts ⟨[], []⟩) p = k1 :: k2 :: krest →
      prepare_tree getCols database catalog schema
          [Statement.mk ⟨[.unnamedExpr (.identifier p)], ts, none, []⟩] =
        .error (errAmbiguous p)) := by
  have halias2 : ∀ t ∈ ts.map (qualifyTable (padParts database catalog schema)),
      t.alias_ = none := by
    intro t ht
    rcases List.mem_map.mp ht with ⟨u, hu, rfl⟩
    exact halias u hu
  have hcoll : collectAliases
      (ts.map (qualifyTable (padParts database catalog schema))) [] =
      ([], ts.map (qualifyTable (padParts database catalog schema))) :=
    collectAliases_aliasfree _ [] halias2
  have hfroms : ts.map (qualifyTable (padParts database catalog schema)) =
      ts.map (fun tb => Table.mk
        (padTableName (padParts database catalog schema) tb.name) none) := by
    apply List.map_congr_left
    intro tb htb
    rcases htbs : tb with ⟨nm, al⟩
    have := halias tb htb
    rw [htbs] at this
    simp only [qualifyTable, padTableName] at this ⊢
    rw [this]
  refine ⟨?_, ?_, ?_⟩
  · intro hc
    unfold prepare_tree
    rw [qualifyTreeTables_eq getCols database catalog schema, bind_ok_eq]
    simp only [List.map_cons, List.map_nil, padStatement, mapME,
      qualifySelect, Select.rewriteExprs, rewriteSelection,
      SelectItem.rewrite, Expr.rewrite, bind_ok_eq, bind_error_eq, hcoll]
    have hq : qualifyIdentifier (buildMaps getCols
        (padParts database catalog schema) ts ⟨[], []⟩) p =
        .error (errColumnNotFound p) := by
      unfold qualifyIdentifier
      rw [hc]
    simp only [buildTreeMaps, hq, bind_ok_eq, bind_error_eq]
  · intro k t hc hk
    unfold prepare_tree
    rw [qualifyTreeTables_eq getCols database catalog schema, bind_ok_eq]
    simp only [List.map_cons, List.map_nil, padStatement, mapME,
      qualifySelect, Select.rewriteExprs, rewriteSelection,
      SelectItem.rewrite, Expr.rewrite, bind_ok_eq, bind_error_eq, hcoll]
    have hq : qualifyIdentifier (buildMaps getCols
        (padParts database catalog schema) ts ⟨[], []⟩) p =
        .ok (.compoundIdentifier (t.name ++ [p])) := by
      unfold qualifyIdentifier
      rw [hc]
      simp only [hk]
    simp only [buildTreeMaps, hq, bind_ok_eq, bind_error_eq, stripAliases,
      List.map_cons, List.map_nil]
    rw [hfroms]
  · intro k1 k2 krest hc
    unfold prepare_tree
    rw [qualifyTreeTables_eq getCols database catalog schema, bind_ok_eq]
    simp only [List.map_cons, List.map_nil, padStatement, mapME,
      qualifySelect, Select.rewriteExprs, rewriteSelection,
      SelectItem.rewrite, Expr.rewrite, bind_ok_eq, bind_error_eq, hcoll]
    have hq : qualifyIdentifier (buildMaps getCols
        (padParts database catalog schema) ts ⟨[], []⟩) p =
        .error (errAmbiguous p) := by
      unfold qualifyIdentifier
      rw [hc]
    simp only [buildTreeMaps, hq, bind_ok_eq, bind_error_eq]

/-- Witness for C7 at the test scenario: the bare identifier `price` over
the qualified `sales` table resolves to its unique owning table. -/
theorem prepare_tree_identifier_resolution_witness :
    prepare_tree salesGetCols "postgres" none (some "main")
        [Statement.mk ⟨[.unnamedExpr (.identifier ⟨none, some "price"⟩)],
          [⟨[⟨none, some "sales"⟩], none⟩], none, []⟩] =
      .ok [Statement.mk ⟨[.unnamedExpr (.compoundIdentifier
            (qualifiedSales ++ [⟨none, some "price"⟩]))],
          [⟨qualifiedSales, none⟩], none, []⟩] := by
  have h := (prepare_tree_identifier_resolution salesGetCols "postgres" none
    (some "main") [⟨[⟨none, some "sales"⟩], none⟩] ⟨none, some "price"⟩
    (by decide)).2.1 "postgres.null.main.sales" ⟨qualifiedSales, none⟩
    (by decide) (by decide)
  simpa using h

end DJ
